import Mathlib

/-!
Verification of the transcription pipeline of the podcast-summarizer
backend (`backend/api`), shallowly embedded in Lean 4.

Embedding conventions:
* Python non-negative integers become `Nat`; the float divisions in
  `Whisper_Transcriber.transcribe` (`total_bytes / duration_ms`,
  `MAX_FILE_SIZE_BYTES / estimated_size_per_ms`,
  `duration_ms / chunk_duration_ms`) are modelled exactly over the
  rationals, so `int(MAX / (total/duration))` is the natural-number
  division `MAX * duration / total` and `math.ceil(d / cd)` is
  `(d + cd - 1) / cd`.
* The byte ceiling is a parameter `ceiling`; the source fixes it to the
  constant `MAX_FILE_SIZE_BYTES = 25 * 1024 * 1024`.
* The filesystem visible to `transcribe` is a record `FS`: the cached
  transcript file (if present) and the set of exported chunk files
  (by chunk index).  Calls to the remote transcription service are an
  oracle `svc : Nat → Nat → Except String String` keyed by the submitted
  time range (the whole-file call submits the range `(0, duration_ms)`),
  and every issued call is recorded in a trace.
* Python exceptions become an `Except` error value; the error taxonomy
  `PyErr` keeps the distinct Python exception classes apart.
-/

namespace PodcastSummarizer

/-- `MAX_FILE_SIZE_BYTES = 25 * 1024 * 1024` from
`whisper_transcriber.py`. -/
def MAX_FILE_SIZE_BYTES : Nat := 25 * 1024 * 1024

/-- A half-open time range `[start_ms, end_ms)` in milliseconds: one
entry of a chunk plan. -/
structure Range where
  start_ms : Nat
  end_ms : Nat
deriving Repr, DecidableEq

/-- `chunk_duration_ms = int(MAX_FILE_SIZE_BYTES / estimated_size_per_ms)`
with `estimated_size_per_ms = total_bytes / duration_ms`
(whisper_transcriber.py lines 71-72), evaluated exactly:
`⌊ceiling / (totalBytes / durationMs)⌋ = ⌊ceiling * durationMs / totalBytes⌋`,
which is natural-number division. -/
def chunk_duration_ms (ceiling totalBytes durationMs : Nat) : Nat :=
  ceiling * durationMs / totalBytes

/-- `chunks = math.ceil(duration_ms / chunk_duration_ms)`
(whisper_transcriber.py line 74), evaluated exactly as a ceiling
division.  Only meaningful when `chunk_duration_ms ≠ 0`; the source
raises `ZeroDivisionError` otherwise (see `transcribe`). -/
def num_chunks (ceiling totalBytes durationMs : Nat) : Nat :=
  (durationMs + chunk_duration_ms ceiling totalBytes durationMs - 1) /
    chunk_duration_ms ceiling totalBytes durationMs

/-- The range handled at loop index `i`:
`start_ms = i * chunk_duration_ms`,
`end_ms = min((i + 1) * chunk_duration_ms, duration_ms)`
(whisper_transcriber.py lines 79-80). -/
def chunkRange (cd durationMs i : Nat) : Range :=
  ⟨i * cd, min ((i + 1) * cd) durationMs⟩

/-- The ordered chunk plan produced by the splitting branch: the ranges
of loop indices `0, 1, …, chunks - 1` in order (whisper_transcriber.py
lines 78-80). -/
def chunkPlan (ceiling totalBytes durationMs : Nat) : List Range :=
  (List.range (num_chunks ceiling totalBytes durationMs)).map
    (chunkRange (chunk_duration_ms ceiling totalBytes durationMs) durationMs)

/-- The plan implicit in `transcribe`'s branch structure
(whisper_transcriber.py lines 55-80): if the file fits under the
ceiling it is submitted whole, in a single direct call covering
`[0, duration_ms)`; otherwise the splitting branch's `chunkPlan` is
used. -/
def plan (ceiling totalBytes durationMs : Nat) : List Range :=
  if totalBytes ≤ ceiling then [⟨0, durationMs⟩]
  else chunkPlan ceiling totalBytes durationMs

/-- `contiguousFrom s rs d` : the ranges `rs` start exactly at `s`, are
contiguous and nonempty (hence non-overlapping), and end exactly at `d`
— together: they cover `[s, d)` exactly once, in order. -/
def contiguousFrom : Nat → List Range → Nat → Prop
  | s, [], d => s = d
  | s, r :: rs, d => r.start_ms = s ∧ s < r.end_ms ∧ contiguousFrom r.end_ms rs d

instance : ∀ s rs d, Decidable (contiguousFrom s rs d) := by
  intro s rs d
  induction rs generalizing s with
  | nil => exact inferInstanceAs (Decidable (s = _))
  | cons r rs ih =>
    have : Decidable (contiguousFrom r.end_ms rs d) := ih _
    exact inferInstanceAs (Decidable (_ ∧ _ ∧ _))

/-- In a contiguous cover starting at `s`, every range starts at or
after `s`. -/
theorem contiguousFrom_le_start {s d : Nat} {rs : List Range}
    (h : contiguousFrom s rs d) :
    ∀ j : Fin rs.length, s ≤ (rs.get j).start_ms := by
  induction rs generalizing s with
  | nil => intro j; exact absurd j.isLt (Nat.not_lt_zero _)
  | cons r rs ih =>
    obtain ⟨hstart, hne, hrest⟩ := h
    intro ⟨jv, hjlt⟩
    cases jv with
    | zero => exact hstart.ge
    | succ k =>
      have := ih hrest ⟨k, Nat.lt_of_succ_lt_succ hjlt⟩
      exact Nat.le_trans (Nat.le_of_lt (hstart ▸ hne)) this

/-- A contiguous cover of `[s, d)` contains every `t` with `s ≤ t < d`
in exactly one of its ranges. -/
theorem contiguousFrom_exactly_once {s d : Nat} {rs : List Range}
    (h : contiguousFrom s rs d) (t : Nat) (hst : s ≤ t) (htd : t < d) :
    ∃ i : Fin rs.length,
      (rs.get i).start_ms ≤ t ∧ t < (rs.get i).end_ms ∧
      ∀ j : Fin rs.length,
        (rs.get j).start_ms ≤ t → t < (rs.get j).end_ms → j = i := by
  induction rs generalizing s with
  | nil =>
    exact absurd (h ▸ htd) (Nat.not_lt.mpr hst)
  | cons r rs ih =>
    obtain ⟨hstart, hne, hrest⟩ := h
    by_cases hcase : t < r.end_ms
    · refine ⟨⟨0, Nat.succ_pos _⟩, hstart ▸ hst, hcase, ?_⟩
      intro j hj1 hj2
      rcases j with ⟨jv, hjlt⟩
      cases jv with
      | zero => rfl
      | succ k =>
        -- a later range starts at or after `r.end_ms`, so it cannot contain `t`
        exfalso
        have hge : r.end_ms ≤ (rs.get ⟨k, Nat.lt_of_succ_lt_succ hjlt⟩).start_ms :=
          contiguousFrom_le_start hrest _
        exact Nat.not_lt.mpr (Nat.le_trans hge hj1) hcase
    · have hend : r.end_ms ≤ t := Nat.le_of_not_lt hcase
      obtain ⟨⟨iv, hilt⟩, hi1, hi2, hiu⟩ := ih hrest hend
      refine ⟨⟨iv + 1, Nat.succ_lt_succ hilt⟩, hi1, hi2, ?_⟩
      intro j hj1 hj2
      rcases j with ⟨jv, hjlt⟩
      cases jv with
      | zero => exact absurd hj2 hcase
      | succ k =>
        have := hiu ⟨k, Nat.lt_of_succ_lt_succ hjlt⟩ hj1 hj2
        simpa [Fin.ext_iff] using congrArg (fun f : Fin _ => f.val + 1)
          (by exact this)

/-- The chunk count over-covers the duration: `duration_ms ≤ chunks * cd`. -/
theorem le_num_chunks_mul {cd d : Nat} (hcd : 1 ≤ cd) :
    d ≤ (d + cd - 1) / cd * cd := by
  have hmod := Nat.div_add_mod (d + cd - 1) cd
  rw [Nat.mul_comm] at hmod
  have hlt : (d + cd - 1) % cd < cd := Nat.mod_lt _ hcd
  omega

/-- Every chunk index below the chunk count starts strictly inside
`[0, d)`. -/
theorem mul_lt_duration {cd d k : Nat} (hcd : 1 ≤ cd) (hd : 1 ≤ d)
    (hk : k < (d + cd - 1) / cd) : k * cd < d := by
  have h1 : (k + 1) * cd ≤ (d + cd - 1) / cd * cd :=
    Nat.mul_le_mul_right _ hk
  have h2 : (d + cd - 1) / cd * cd ≤ d + cd - 1 := Nat.div_mul_le_self _ _
  have h3 : k * cd + cd = (k + 1) * cd := by ring
  omega

/-- The ranges emitted by the splitting loop for indices `k, …, N-1`
form a contiguous cover of `[k*cd, d)` (with `N = ⌈d / cd⌉`). -/
theorem chunkRanges_contiguous {cd d : Nat} (hcd : 1 ≤ cd) (hd : 1 ≤ d) :
    ∀ n k, k + n = (d + cd - 1) / cd → 1 ≤ n →
      contiguousFrom (k * cd)
        ((List.range' k n).map (chunkRange cd d)) d := by
  intro n
  induction n with
  | zero => intro k _ hn; exact absurd hn (by omega)
  | succ m ih =>
    intro k hk _
    cases m with
    | zero =>
      -- last chunk: ends at `min ((k+1)*cd) d = d`
      have hkN : k < (d + cd - 1) / cd := by omega
      have hstart : k * cd < d := mul_lt_duration hcd hd hkN
      have hcover : d ≤ (k + 1) * cd := by
        have := @le_num_chunks_mul cd d hcd
        have : (d + cd - 1) / cd * cd = (k + 1) * cd := by rw [← hk]
        omega
      refine ⟨rfl, ?_, ?_⟩
      · simpa [chunkRange, Nat.min_eq_right hcover] using hstart
      · simpa [chunkRange, contiguousFrom] using Nat.min_eq_right hcover
    | succ p =>
      -- middle chunk: ends at `(k+1)*cd < d`, the next chunk's start
      have hk1N : k + 1 < (d + cd - 1) / cd := by omega
      have hend : (k + 1) * cd < d := mul_lt_duration hcd hd hk1N
      have hmin : min ((k + 1) * cd) d = (k + 1) * cd :=
        Nat.min_eq_left (Nat.le_of_lt hend)
      have hlt : k * cd < (k + 1) * cd := by
        have : k * cd + cd = (k + 1) * cd := by ring
        omega
      refine ⟨rfl, ?_, ?_⟩
      · simpa [chunkRange, hmin] using hlt
      · have := ih (k + 1) (by omega) (by omega)
        simpa [chunkRange, hmin] using this

/--
C1.  In the splitting branch (`total_bytes > ceiling`, `duration_ms > 0`,
`chunk_duration_ms ≥ 1`), the emitted chunk plan (a) is a contiguous,
non-overlapping, ordered cover of `[0, duration_ms)`, (b) contains every
instant `t < duration_ms` in exactly one range, and (c) every range's
estimated exported size `(end - start) * (total_bytes / duration_ms)` is
at most the byte ceiling (stated multiplied through by `duration_ms`).
-/
theorem chunkPlan_partition_and_bounded (ceiling totalBytes durationMs : Nat)
    (hover : ceiling < totalBytes) (hd : 0 < durationMs)
    (hcd : 1 ≤ chunk_duration_ms ceiling totalBytes durationMs) :
    contiguousFrom 0 (chunkPlan ceiling totalBytes durationMs) durationMs ∧
    (∀ t, t < durationMs →
      ∃ i : Fin (chunkPlan ceiling totalBytes durationMs).length,
        ((chunkPlan ceiling totalBytes durationMs).get i).start_ms ≤ t ∧
        t < ((chunkPlan ceiling totalBytes durationMs).get i).end_ms ∧
        ∀ j, ((chunkPlan ceiling totalBytes durationMs).get j).start_ms ≤ t →
          t < ((chunkPlan ceiling totalBytes durationMs).get j).end_ms → j = i) ∧
    (∀ r ∈ chunkPlan ceiling totalBytes durationMs,
      (r.end_ms - r.start_ms) * totalBytes ≤ ceiling * durationMs) := by
  have hcont : contiguousFrom 0 (chunkPlan ceiling totalBytes durationMs) durationMs := by
    have hN : 1 ≤ num_chunks ceiling totalBytes durationMs := by
      unfold num_chunks
      have : 1 * chunk_duration_ms ceiling totalBytes durationMs ≤
          durationMs + chunk_duration_ms ceiling totalBytes durationMs - 1 := by omega
      exact (Nat.le_div_iff_mul_le hcd).mpr this
    have := @chunkRanges_contiguous (chunk_duration_ms ceiling totalBytes durationMs)
      durationMs hcd hd (num_chunks ceiling totalBytes durationMs) 0
      (by rw [Nat.zero_add]; rfl) hN
    simpa [chunkPlan, num_chunks, List.range_eq_range'] using this
  refine ⟨hcont, fun t ht => contiguousFrom_exactly_once hcont t (Nat.zero_le _) ht, ?_⟩
  intro r hr
  obtain ⟨i, _, rfl⟩ := List.mem_map.mp hr
  have hlen : (chunkRange (chunk_duration_ms ceiling totalBytes durationMs) durationMs i).end_ms -
      (chunkRange (chunk_duration_ms ceiling totalBytes durationMs) durationMs i).start_ms ≤
      chunk_duration_ms ceiling totalBytes durationMs := by
    simp only [chunkRange]
    have : min ((i + 1) * chunk_duration_ms ceiling totalBytes durationMs) durationMs ≤
        (i + 1) * chunk_duration_ms ceiling totalBytes durationMs := Nat.min_le_left _ _
    have hmul : i * chunk_duration_ms ceiling totalBytes durationMs +
        chunk_duration_ms ceiling totalBytes durationMs =
        (i + 1) * chunk_duration_ms ceiling totalBytes durationMs := by ring
    omega
  have h1 : ((chunkRange (chunk_duration_ms ceiling totalBytes durationMs) durationMs i).end_ms -
      (chunkRange (chunk_duration_ms ceiling totalBytes durationMs) durationMs i).start_ms) *
      totalBytes ≤ chunk_duration_ms ceiling totalBytes durationMs * totalBytes :=
    Nat.mul_le_mul_right _ hlen
  have h2 : chunk_duration_ms ceiling totalBytes durationMs * totalBytes ≤
      ceiling * durationMs := Nat.div_mul_le_self _ _
  exact Nat.le_trans h1 h2

/-! ## Stateful model of `Whisper_Transcriber.transcribe`

The effects of `transcribe` (whisper_transcriber.py lines 34-105) are
modelled by explicit state passing over a filesystem record `FS`.  The
remote transcription service is an oracle keyed by the submitted time
range; the direct (non-splitting) call submits the whole file, i.e. the
range `(0, duration_ms)`. -/

/-- The Python exceptions `transcribe` can raise, kept apart by class.
`planningError` mirrors the spec's `PlanningError` taxonomy entry; no
code path of the source produces it. -/
inductive PyErr where
  | zeroDivisionError
  | serviceError (msg : String)
  | planningError
deriving Repr, DecidableEq

/-- The filesystem state visible to `transcribe` for one `video_id`:
the cached transcript file's content (if the file exists), the set of
exported chunk files currently on disk (by loop index `i`), and the
trace of transcription-service calls issued so far (by submitted time
range). -/
structure FS where
  transcript : Option String
  chunkFiles : List Nat
  calls : List (Nat × Nat)
deriving Repr, DecidableEq

/-- `chunk.export(chunk_path, ...)` (line 87): creates the chunk file;
overwriting an existing file leaves the set of existing files
unchanged. -/
def addFile (files : List Nat) (i : Nat) : List Nat :=
  if i ∈ files then files else files ++ [i]

/-- The splitting loop `for i in range(chunks)` (whisper_transcriber.py
lines 78-98): for each index, export the chunk file, submit it to the
service (recording the call), and — only if the call returns — append
the text and `os.remove` the chunk file.  A service exception
propagates immediately, after the chunk file was exported and the
failing call issued. -/
def chunkLoop (svc : Nat → Nat → Except String String) (cd durationMs : Nat) :
    List Nat → String → FS → Except (String × FS) (String × FS)
  | [], acc, fs => .ok (acc, fs)
  | i :: rest, acc, fs =>
    let s := i * cd
    let e := min ((i + 1) * cd) durationMs
    let fs1 : FS := { fs with chunkFiles := addFile fs.chunkFiles i,
                              calls := fs.calls ++ [(s, e)] }
    match svc s e with
    | .error msg => .error (msg, fs1)
    | .ok text =>
      chunkLoop svc cd durationMs rest (acc ++ text)
        { fs1 with chunkFiles := fs1.chunkFiles.erase i }

/-- The uncached body of `transcribe` (whisper_transcriber.py lines
53-98): the branch on `os.path.getsize(audio_path)` against the byte
ceiling, the direct whole-file call, and the splitting branch. -/
def transcribeCore (ceiling totalBytes durationMs : Nat)
    (svc : Nat → Nat → Except String String) (fs : FS) :
    Except (PyErr × FS) (String × FS) :=
  if totalBytes ≤ ceiling then
    let fs1 : FS := { fs with calls := fs.calls ++ [(0, durationMs)] }
    match svc 0 durationMs with
    | .error msg => .error (.serviceError msg, fs1)
    | .ok t => .ok (t, fs1)
  else
    if chunk_duration_ms ceiling totalBytes durationMs = 0 then
      .error (.zeroDivisionError, fs)
    else
      match chunkLoop svc (chunk_duration_ms ceiling totalBytes durationMs)
          durationMs (List.range (num_chunks ceiling totalBytes durationMs)) "" fs with
      | .error (msg, fs1) => .error (.serviceError msg, fs1)
      | .ok (t, fs1) => .ok (t, fs1)

/-- `Whisper_Transcriber.transcribe` (whisper_transcriber.py lines
34-105) with the byte ceiling as a parameter (the source fixes it to
`MAX_FILE_SIZE_BYTES`):
* debug cache hit (lines 45-48): return the cached transcript file's
  content, issuing no call;
* otherwise run `transcribeCore`; errors propagate;
* on success with debug (lines 100-103): write the transcript file
  before returning. -/
def transcribe (debug : Bool) (ceiling totalBytes durationMs : Nat)
    (svc : Nat → Nat → Except String String) (fs : FS) :
    Except (PyErr × FS) (String × FS) :=
  match debug, fs.transcript with
  | true, some t => .ok (t, fs)
  | _, _ =>
    match transcribeCore ceiling totalBytes durationMs svc fs with
    | .error e => .error e
    | .ok (t, fs1) =>
      .ok (t, if debug then { fs1 with transcript := some t } else fs1)

/-- The chunk files existing after a `transcribe` result (error or
success). -/
def resultChunkFiles : Except (PyErr × FS) (String × FS) → List Nat
  | .error (_, fs) => fs.chunkFiles
  | .ok (_, fs) => fs.chunkFiles

/-- The time range submitted to the service for loop index `i`. -/
def callOf (cd durationMs i : Nat) : Nat × Nat :=
  (i * cd, min ((i + 1) * cd) durationMs)

/-- Concatenation of per-chunk texts in order, with no separators. -/
def concatAll : List String → String
  | [] => ""
  | t :: ts => t ++ concatAll ts

/-- An empty filesystem: no cached transcript, no chunk files, no
calls issued. -/
def fs0 : FS := ⟨none, [], []⟩

/-- Exporting a chunk file that is not yet on disk appends it. -/
theorem addFile_not_mem {files : List Nat} {i : Nat} (h : i ∉ files) :
    addFile files i = files ++ [i] := by
  unfold addFile
  rw [if_neg h]

/-- Exporting a chunk file that is not on disk and then `os.remove`-ing
it restores the original set of files. -/
theorem addFile_erase {files : List Nat} {i : Nat} (h : i ∉ files) :
    (addFile files i).erase i = files := by
  rw [addFile_not_mem h, List.erase_append_right _ h]
  simp

/-- If the service returns text for every range of `idxs` and no chunk
file of `idxs` pre-exists, the splitting loop succeeds: it appends the
chunk texts to the accumulator in loop order with no separator, records
one call per chunk in loop order, and deletes every chunk file it
exported. -/
theorem chunkLoop_ok (svc : Nat → Nat → Except String String)
    (cd durationMs : Nat) (texts : Nat → String) :
    ∀ (idxs : List Nat) (acc : String) (fs : FS),
      (∀ i ∈ idxs, svc (i * cd) (min ((i + 1) * cd) durationMs) = .ok (texts i)) →
      (∀ i ∈ idxs, i ∉ fs.chunkFiles) →
      chunkLoop svc cd durationMs idxs acc fs =
        .ok (acc ++ concatAll (idxs.map texts),
          { fs with calls := fs.calls ++ idxs.map (callOf cd durationMs) }) := by
  intro idxs
  induction idxs with
  | nil =>
    intro acc fs _ _
    simp [chunkLoop, concatAll, String.append_empty]
  | cons i rest ih =>
    intro acc fs hsvc hfiles
    have hs : svc (i * cd) (min ((i + 1) * cd) durationMs) = .ok (texts i) :=
      hsvc i (List.mem_cons_self _ _)
    have hni : i ∉ fs.chunkFiles := hfiles i (List.mem_cons_self _ _)
    have hrec := ih (acc ++ texts i)
      { fs with calls := fs.calls ++ [callOf cd durationMs i] }
      (fun j hj => hsvc j (List.mem_cons_of_mem _ hj))
      (fun j hj => hfiles j (List.mem_cons_of_mem _ hj))
    simp only [callOf] at hrec
    simp only [chunkLoop, hs]
    rw [addFile_erase hni, hrec]
    simp [concatAll, callOf, String.append_assoc]

/-- If the service returns text for every range of `pre`, then raises
on chunk `j`, the splitting loop propagates the error after issuing the
calls for `pre` and the failing call for `j`, in order; the chunk files
of `pre` were deleted, but `j`'s exported chunk file is left on disk,
and the chunks after `j` are never touched. -/
theorem chunkLoop_fail (svc : Nat → Nat → Except String String)
    (cd durationMs : Nat) (texts : Nat → String) (j : Nat) (msg : String) :
    ∀ (pre post : List Nat) (acc : String) (fs : FS),
      (∀ i ∈ pre, svc (i * cd) (min ((i + 1) * cd) durationMs) = .ok (texts i)) →
      svc (j * cd) (min ((j + 1) * cd) durationMs) = .error msg →
      (∀ i ∈ pre, i ∉ fs.chunkFiles) → j ∉ fs.chunkFiles →
      chunkLoop svc cd durationMs (pre ++ j :: post) acc fs =
        .error (msg,
          { fs with
            chunkFiles := fs.chunkFiles ++ [j],
            calls := fs.calls ++ (pre ++ [j]).map (callOf cd durationMs) }) := by
  intro pre
  induction pre with
  | nil =>
    intro post acc fs _ hj _ hnj
    simp only [List.nil_append, chunkLoop, hj]
    rw [addFile_not_mem hnj]
    simp [callOf]
  | cons i rest ih =>
    intro post acc fs hsvc hj hfiles hnj
    have hs : svc (i * cd) (min ((i + 1) * cd) durationMs) = .ok (texts i) :=
      hsvc i (List.mem_cons_self _ _)
    have hni : i ∉ fs.chunkFiles := hfiles i (List.mem_cons_self _ _)
    have hrec := ih post (acc ++ texts i)
      { fs with calls := fs.calls ++ [callOf cd durationMs i] }
      (fun k hk => hsvc k (List.mem_cons_of_mem _ hk)) hj
      (fun k hk => hfiles k (List.mem_cons_of_mem _ hk)) hnj
    simp only [callOf] at hrec
    simp only [List.cons_append, List.append_eq, chunkLoop, hs]
    rw [addFile_erase hni, hrec]
    simp [callOf, List.append_assoc]

/-- Splitting `range(chunks)` at a failing index `j`. -/
theorem range_split (N j : Nat) (hj : j < N) :
    List.range N = List.range' 0 j ++ j :: List.range' (j + 1) (N - j - 1) := by
  rw [List.range_eq_range']
  have h1 := List.range'_append 0 j (N - j) 1
  simp only [Nat.one_mul, Nat.zero_add] at h1
  rw [show N - j + j = N by omega] at h1
  rw [← h1]
  congr 1
  set k := N - j - 1 with hk
  rw [show N - j = k + 1 by omega, List.range'_succ j k 1]

/-- The prefix `range' 0 j ++ [j]` of issued chunk indices is
`range (j+1)`. -/
theorem range'_append_singleton (j : Nat) :
    List.range' 0 j ++ [j] = List.range (j + 1) := by
  have h1 := List.range'_append 0 j 1 1
  simp only [Nat.one_mul, Nat.zero_add] at h1
  rw [List.range_eq_range', show j + 1 = 1 + j by omega, ← h1]
  rfl

/-- The full trace of service calls the splitting branch issues on
success: one call per chunk, in range order. -/
def planCalls (ceiling totalBytes durationMs : Nat) : List (Nat × Nat) :=
  (List.range (num_chunks ceiling totalBytes durationMs)).map
    (callOf (chunk_duration_ms ceiling totalBytes durationMs) durationMs)

/-- The trace of service calls for chunks `0, …, j`, in range order. -/
def callsThrough (ceiling totalBytes durationMs j : Nat) : List (Nat × Nat) :=
  (List.range (j + 1)).map
    (callOf (chunk_duration_ms ceiling totalBytes durationMs) durationMs)

/-- If every chunk's service call succeeds and no chunk file
pre-exists, the splitting branch of `transcribe` succeeds, assembling
the texts in range order, deleting every exported chunk file and
recording one call per chunk in order. -/
theorem transcribeCore_split_ok (ceiling totalBytes durationMs : Nat)
    (svc : Nat → Nat → Except String String) (texts : Nat → String) (fs : FS)
    (hover : ceiling < totalBytes)
    (hcd : chunk_duration_ms ceiling totalBytes durationMs ≠ 0)
    (hfiles : fs.chunkFiles = [])
    (hsvc : ∀ i, i < num_chunks ceiling totalBytes durationMs →
      svc (i * chunk_duration_ms ceiling totalBytes durationMs)
        (min ((i + 1) * chunk_duration_ms ceiling totalBytes durationMs) durationMs) =
        .ok (texts i)) :
    transcribeCore ceiling totalBytes durationMs svc fs =
      .ok (concatAll ((List.range (num_chunks ceiling totalBytes durationMs)).map texts),
        { fs with calls := fs.calls ++ planCalls ceiling totalBytes durationMs }) := by
  have hnfit : ¬ totalBytes ≤ ceiling := Nat.not_le.mpr hover
  have hloop := chunkLoop_ok svc (chunk_duration_ms ceiling totalBytes durationMs)
    durationMs texts (List.range (num_chunks ceiling totalBytes durationMs)) "" fs
    (fun i hi => hsvc i (List.mem_range.mp hi))
    (fun i _ => by rw [hfiles]; exact List.not_mem_nil i)
  rw [String.empty_append] at hloop
  simp [transcribeCore, hnfit, hcd, hloop, planCalls]

/-- If the service calls for chunks `0, …, j-1` succeed and the call
for chunk `j < chunks` raises, the splitting branch of `transcribe`
propagates the error: exactly the calls for chunks `0, …, j` were
issued (none later), chunk `j`'s exported file is left on disk, and
the rest of the filesystem is unchanged. -/
theorem transcribeCore_split_fail (ceiling totalBytes durationMs : Nat)
    (svc : Nat → Nat → Except String String) (texts : Nat → String) (fs : FS)
    (j : Nat) (msg : String)
    (hover : ceiling < totalBytes)
    (hcd : chunk_duration_ms ceiling totalBytes durationMs ≠ 0)
    (hfiles : fs.chunkFiles = [])
    (hj : j < num_chunks ceiling totalBytes durationMs)
    (hpre : ∀ i, i < j →
      svc (i * chunk_duration_ms ceiling totalBytes durationMs)
        (min ((i + 1) * chunk_duration_ms ceiling totalBytes durationMs) durationMs) =
        .ok (texts i))
    (hfail : svc (j * chunk_duration_ms ceiling totalBytes durationMs)
        (min ((j + 1) * chunk_duration_ms ceiling totalBytes durationMs) durationMs) =
        .error msg) :
    transcribeCore ceiling totalBytes durationMs svc fs =
      .error (.serviceError msg,
        { fs with chunkFiles := [j], calls := fs.calls ++ callsThrough ceiling totalBytes durationMs j }) := by
  have hnfit : ¬ totalBytes ≤ ceiling := Nat.not_le.mpr hover
  have hloop := chunkLoop_fail svc (chunk_duration_ms ceiling totalBytes durationMs)
    durationMs texts j msg (List.range' 0 j)
    (List.range' (j + 1) (num_chunks ceiling totalBytes durationMs - j - 1)) "" fs
    (fun i hi => hpre i (by have := List.mem_range'_1.mp hi; omega))
    hfail
    (fun i _ => by rw [hfiles]; exact List.not_mem_nil i)
    (by rw [hfiles]; exact List.not_mem_nil j)
  rw [range'_append_singleton j] at hloop
  rw [← range_split _ _ hj] at hloop
  simp only [transcribeCore, if_neg hnfit, if_neg hcd, hloop]
  rw [hfiles]
  simp [callsThrough]

/-- A service oracle that always fails. -/
def svcNever : Nat → Nat → Except String String :=
  fun _ _ => .error "service unavailable"

/-- A service oracle that always returns the same text. -/
def svcHello : Nat → Nat → Except String String :=
  fun _ _ => .ok "hello"

/--
C9.  In the oversized branch (`total_bytes > byte_ceiling`) with
`chunk_duration_ms ≥ 1`, the chunk count
`ceil(duration_ms / chunk_duration_ms)` is at least 2: the splitting
branch never degenerates into a single chunk, because
`chunk_duration_ms = ⌊byte_ceiling * duration_ms / total_bytes⌋` is
strictly less than `duration_ms`.
-/
theorem num_chunks_ge_two (ceiling totalBytes durationMs : Nat)
    (hover : ceiling < totalBytes)
    (hcd : 1 ≤ chunk_duration_ms ceiling totalBytes durationMs) :
    2 ≤ num_chunks ceiling totalBytes durationMs := by
  have htB : 0 < totalBytes := Nat.lt_of_le_of_lt (Nat.zero_le _) hover
  have hd : 0 < durationMs := by
    rcases Nat.eq_zero_or_pos durationMs with h0 | h
    · exfalso
      unfold chunk_duration_ms at hcd
      rw [h0, Nat.mul_zero, Nat.zero_div] at hcd
      omega
    · exact h
  have hcdlt : chunk_duration_ms ceiling totalBytes durationMs < durationMs := by
    unfold chunk_duration_ms
    rw [Nat.div_lt_iff_lt_mul htB]
    calc ceiling * durationMs < totalBytes * durationMs :=
          mul_lt_mul_of_pos_right hover hd
      _ = durationMs * totalBytes := Nat.mul_comm _ _
  unfold num_chunks
  rw [Nat.le_div_iff_mul_le hcd]
  omega

/-- Witness for C9 at the spec's scenario-B input
`total_bytes = 60_000_000`, `duration_ms = 1_200_000`,
`ceiling = 25_000_000` (3 chunks). -/
theorem num_chunks_ge_two_witness :
    25000000 < 60000000 ∧ 1 ≤ chunk_duration_ms 25000000 60000000 1200000 ∧
      2 ≤ num_chunks 25000000 60000000 1200000 :=
  ⟨by decide, by decide,
    num_chunks_ge_two 25000000 60000000 1200000 (by decide) (by decide)⟩

/--
C4.  When `total_bytes ≤ byte_ceiling`, the plan is the single range
`[0, duration_ms)` and `transcribe` performs exactly one direct
service call on the whole file, with no splitting and no chunk-file
export.
-/
theorem plan_single_range_when_fits (debug : Bool)
    (ceiling totalBytes durationMs : Nat)
    (svc : Nat → Nat → Except String String) (fs : FS) (t : String)
    (hfit : totalBytes ≤ ceiling) (hmiss : fs.transcript = none)
    (hsvc : svc 0 durationMs = .ok t) :
    plan ceiling totalBytes durationMs = [⟨0, durationMs⟩] ∧
    ∃ fs1, transcribe debug ceiling totalBytes durationMs svc fs = .ok (t, fs1) ∧
      fs1.calls = fs.calls ++ [(0, durationMs)] ∧
      fs1.chunkFiles = fs.chunkFiles := by
  refine ⟨by simp [plan, hfit], ?_⟩
  cases debug with
  | false =>
    refine ⟨{ fs with calls := fs.calls ++ [(0, durationMs)] }, ?_, rfl, rfl⟩
    simp [transcribe, hmiss, transcribeCore, hfit, hsvc]
  | true =>
    refine ⟨{ fs with transcript := some t, calls := fs.calls ++ [(0, durationMs)] }, ?_, rfl, rfl⟩
    simp [transcribe, hmiss, transcribeCore, hfit, hsvc]

/-- Witness for C4 at the spec's scenario-A input
`total_bytes = 10_000_000`, `duration_ms = 600_000`,
`ceiling = 25_000_000`. -/
theorem plan_single_range_when_fits_witness :
    10000000 ≤ 25000000 ∧ fs0.transcript = none ∧
      svcHello 0 600000 = .ok "hello" ∧
      (plan 25000000 10000000 600000 = [⟨0, 600000⟩] ∧
        ∃ fs1, transcribe false 25000000 10000000 600000 svcHello fs0 = .ok ("hello", fs1) ∧
          fs1.calls = fs0.calls ++ [(0, 600000)] ∧
          fs1.chunkFiles = fs0.chunkFiles) :=
  ⟨by decide, rfl, rfl,
    plan_single_range_when_fits false 25000000 10000000 600000 svcHello fs0 "hello"
      (by decide) rfl rfl⟩

/--
C3 (amended).  In the oversized branch, when the computed
`chunk_duration_ms` is `0` (the only way it can be `≤ 0`), chunk
planning fails by raising `ZeroDivisionError` from
`math.ceil(duration_ms / chunk_duration_ms)` — there is no
`PlanningError` in the code — and the filesystem is untouched: no plan
is produced and no service call is issued.
-/
theorem split_zero_chunk_duration_raises (debug : Bool)
    (ceiling totalBytes durationMs : Nat)
    (svc : Nat → Nat → Except String String) (fs : FS)
    (hover : ceiling < totalBytes) (hmiss : fs.transcript = none)
    (hcd : chunk_duration_ms ceiling totalBytes durationMs = 0) :
    transcribe debug ceiling totalBytes durationMs svc fs =
      .error (.zeroDivisionError, fs) := by
  have hnfit : ¬ totalBytes ≤ ceiling := Nat.not_le.mpr hover
  cases debug <;> simp [transcribe, hmiss, transcribeCore, hnfit, hcd]

/-- Witness for the amended C3: a 1 ms file one byte over the ceiling
estimates more than the ceiling per millisecond, so
`chunk_duration_ms = 0`. -/
theorem split_zero_chunk_duration_raises_witness :
    MAX_FILE_SIZE_BYTES < MAX_FILE_SIZE_BYTES + 1 ∧ fs0.transcript = none ∧
      chunk_duration_ms MAX_FILE_SIZE_BYTES (MAX_FILE_SIZE_BYTES + 1) 1 = 0 ∧
      transcribe true MAX_FILE_SIZE_BYTES (MAX_FILE_SIZE_BYTES + 1) 1 svcNever fs0 =
        .error (.zeroDivisionError, fs0) :=
  ⟨by decide, rfl, by decide,
    split_zero_chunk_duration_raises true MAX_FILE_SIZE_BYTES (MAX_FILE_SIZE_BYTES + 1) 1
      svcNever fs0 (by decide) rfl (by decide)⟩

/-- Counterexample to C3 as stated: at
`total_bytes = MAX_FILE_SIZE_BYTES + 1`, `duration_ms = 1` the computed
`chunk_duration_ms` is `0`, and the failure is `ZeroDivisionError`, not
the spec's `PlanningError`. -/
theorem split_zero_chunk_duration_cex :
    transcribe false MAX_FILE_SIZE_BYTES (MAX_FILE_SIZE_BYTES + 1) 1 svcNever fs0 =
      .error (.zeroDivisionError, fs0) ∧
    PyErr.zeroDivisionError ≠ PyErr.planningError := by
  exact ⟨rfl, by decide⟩

/-- A service oracle that always raises. -/
def svcBoom : Nat → Nat → Except String String :=
  fun _ _ => .error "boom"

/-- The transcript file's content after a `transcribe` result. -/
def resultTranscript : Except (PyErr × FS) (String × FS) → Option String
  | .error (_, fs) => fs.transcript
  | .ok (_, fs) => fs.transcript

/-- On a cache miss, `transcribe` returns whatever its body computes,
writing the transcript file first when debug is on. -/
theorem transcribe_miss_ok (debug : Bool) (ceiling totalBytes durationMs : Nat)
    (svc : Nat → Nat → Except String String) (fs : FS)
    (hmiss : fs.transcript = none) (t : String) (fs1 : FS)
    (hcore : transcribeCore ceiling totalBytes durationMs svc fs = .ok (t, fs1)) :
    transcribe debug ceiling totalBytes durationMs svc fs =
      .ok (t, if debug then { fs1 with transcript := some t } else fs1) := by
  cases debug <;> simp [transcribe, hmiss, hcore]

/-- On a cache miss, an exception in `transcribe`'s body propagates
unchanged. -/
theorem transcribe_miss_error (debug : Bool) (ceiling totalBytes durationMs : Nat)
    (svc : Nat → Nat → Except String String) (fs : FS)
    (hmiss : fs.transcript = none) (e : PyErr × FS)
    (hcore : transcribeCore ceiling totalBytes durationMs svc fs = .error e) :
    transcribe debug ceiling totalBytes durationMs svc fs = .error e := by
  cases debug <;> simp [transcribe, hmiss, hcore]

/--
C2 (amended).  In a multi-chunk transcription, a chunk's exported
temporary file is deleted only on the success path of that chunk's
service call: when every call succeeds no chunk file is left on disk,
but when chunk `j`'s call raises, `j`'s exported file is left behind
(the earlier chunks' files were already deleted one by one).
-/
theorem chunk_artifact_cleanup (debug : Bool) (ceiling totalBytes durationMs : Nat)
    (svc : Nat → Nat → Except String String) (texts : Nat → String) (fs : FS)
    (hover : ceiling < totalBytes) (hmiss : fs.transcript = none)
    (hcd : chunk_duration_ms ceiling totalBytes durationMs ≠ 0)
    (hfiles : fs.chunkFiles = []) :
    ((∀ i, i < num_chunks ceiling totalBytes durationMs →
        svc (i * chunk_duration_ms ceiling totalBytes durationMs)
          (min ((i + 1) * chunk_duration_ms ceiling totalBytes durationMs) durationMs) =
          .ok (texts i)) →
      resultChunkFiles (transcribe debug ceiling totalBytes durationMs svc fs) = []) ∧
    (∀ j msg, j < num_chunks ceiling totalBytes durationMs →
      (∀ i, i < j → svc (i * chunk_duration_ms ceiling totalBytes durationMs)
          (min ((i + 1) * chunk_duration_ms ceiling totalBytes durationMs) durationMs) =
          .ok (texts i)) →
      svc (j * chunk_duration_ms ceiling totalBytes durationMs)
          (min ((j + 1) * chunk_duration_ms ceiling totalBytes durationMs) durationMs) =
          .error msg →
      resultChunkFiles (transcribe debug ceiling totalBytes durationMs svc fs) = [j]) := by
  constructor
  · intro hsvc
    have hcore := transcribeCore_split_ok ceiling totalBytes durationMs svc texts fs
      hover hcd hfiles hsvc
    rw [transcribe_miss_ok debug ceiling totalBytes durationMs svc fs hmiss _ _ hcore]
    cases debug <;> simp [resultChunkFiles, hfiles]
  · intro j msg hj hpre hfail
    have hcore := transcribeCore_split_fail ceiling totalBytes durationMs svc texts fs
      j msg hover hcd hfiles hj hpre hfail
    rw [transcribe_miss_error debug ceiling totalBytes durationMs svc fs hmiss _ hcore]
    simp [resultChunkFiles]

/-- Witness for the amended C2, success side: a 2-chunk plan
(`ceiling = 1`, `total_bytes = 2`, `duration_ms = 2`) with an
always-succeeding service leaves no chunk file behind. -/
theorem chunk_artifact_cleanup_witness :
    resultChunkFiles (transcribe false 1 2 2 svcHello fs0) = [] :=
  (chunk_artifact_cleanup false 1 2 2 svcHello (fun _ => "hello") fs0
    (by decide) rfl (by decide) rfl).1 (fun _ _ => rfl)

/-- Counterexample to C2 as stated: same 2-chunk plan with an
always-raising service — after chunk 0's call raises, chunk 0's
exported file is still on disk. -/
theorem chunk_artifact_cleanup_cex :
    transcribe false 1 2 2 svcBoom fs0 =
      .error (.serviceError "boom",
        { transcript := none, chunkFiles := [0], calls := [(0, 1)] }) ∧
    0 ∈ resultChunkFiles (transcribe false 1 2 2 svcBoom fs0) := by
  exact ⟨rfl, by decide⟩

/-- Per-chunk texts of a 3-chunk plan, by chunk index. -/
def three (t0 t1 t2 : String) : Nat → String :=
  fun i => if i = 0 then t0 else if i = 1 then t1 else t2

/--
C5.  For a 3-chunk plan where the service returns `t0`, `t1`, `t2` for
the three ranges, the assembled transcript is exactly
`t0 ++ t1 ++ t2`: texts in range (temporal) order, no separators.
-/
theorem assembled_text_in_range_order (debug : Bool)
    (ceiling totalBytes durationMs : Nat)
    (svc : Nat → Nat → Except String String) (fs : FS) (t0 t1 t2 : String)
    (hover : ceiling < totalBytes) (hmiss : fs.transcript = none)
    (hcd : chunk_duration_ms ceiling totalBytes durationMs ≠ 0)
    (hfiles : fs.chunkFiles = [])
    (hnum : num_chunks ceiling totalBytes durationMs = 3)
    (h0 : svc 0 (min (chunk_duration_ms ceiling totalBytes durationMs) durationMs) = .ok t0)
    (h1 : svc (chunk_duration_ms ceiling totalBytes durationMs)
      (min (2 * chunk_duration_ms ceiling totalBytes durationMs) durationMs) = .ok t1)
    (h2 : svc (2 * chunk_duration_ms ceiling totalBytes durationMs)
      (min (3 * chunk_duration_ms ceiling totalBytes durationMs) durationMs) = .ok t2) :
    ∃ fs1, transcribe debug ceiling totalBytes durationMs svc fs =
      .ok (t0 ++ t1 ++ t2, fs1) := by
  have hsvc : ∀ i, i < num_chunks ceiling totalBytes durationMs →
      svc (i * chunk_duration_ms ceiling totalBytes durationMs)
        (min ((i + 1) * chunk_duration_ms ceiling totalBytes durationMs) durationMs) =
        .ok (three t0 t1 t2 i) := by
    intro i hi
    rw [hnum] at hi
    interval_cases i
    · simpa [three] using h0
    · simpa [three] using h1
    · simpa [three] using h2
  have hcore := transcribeCore_split_ok ceiling totalBytes durationMs svc
    (three t0 t1 t2) fs hover hcd hfiles hsvc
  have htext : concatAll ((List.range (num_chunks ceiling totalBytes durationMs)).map
      (three t0 t1 t2)) = t0 ++ t1 ++ t2 := by
    rw [hnum]
    show t0 ++ (t1 ++ (t2 ++ "")) = t0 ++ t1 ++ t2
    simp [String.append_empty, String.append_assoc]
  rw [htext] at hcore
  exact ⟨_, transcribe_miss_ok debug ceiling totalBytes durationMs svc fs hmiss _ _ hcore⟩

/-- Distinguishable per-chunk markers for the spec's scenario-B plan
(`cd = 500_000`). -/
def svcMarks : Nat → Nat → Except String String :=
  fun s _ => if s = 0 then .ok "A" else if s = 500000 then .ok "B" else .ok "C"

/-- Witness for C5 at scenario B: 3 ranges, markers "A", "B", "C"
assemble to "ABC". -/
theorem assembled_text_in_range_order_witness :
    ∃ fs1, transcribe false 25000000 60000000 1200000 svcMarks fs0 =
      .ok ("A" ++ "B" ++ "C", fs1) :=
  assembled_text_in_range_order false 25000000 60000000 1200000 svcMarks fs0
    "A" "B" "C" (by decide) rfl (by decide) rfl (by decide) rfl rfl rfl

/--
C6.  When chunk `j`'s service call raises in a multi-chunk
transcription, the whole assembly aborts: `transcribe` raises (returns
no text), exactly the calls for chunks `0, …, j` were issued (no later
chunk is transcribed), and no transcript — partial or otherwise — is
persisted to the cache.
-/
theorem chunk_failure_aborts (debug : Bool) (ceiling totalBytes durationMs : Nat)
    (svc : Nat → Nat → Except String String) (texts : Nat → String) (fs : FS)
    (j : Nat) (msg : String)
    (hover : ceiling < totalBytes) (hmiss : fs.transcript = none)
    (hcd : chunk_duration_ms ceiling totalBytes durationMs ≠ 0)
    (hfiles : fs.chunkFiles = [])
    (hj : j < num_chunks ceiling totalBytes durationMs)
    (hpre : ∀ i, i < j →
      svc (i * chunk_duration_ms ceiling totalBytes durationMs)
        (min ((i + 1) * chunk_duration_ms ceiling totalBytes durationMs) durationMs) =
        .ok (texts i))
    (hfail : svc (j * chunk_duration_ms ceiling totalBytes durationMs)
        (min ((j + 1) * chunk_duration_ms ceiling totalBytes durationMs) durationMs) =
        .error msg) :
    transcribe debug ceiling totalBytes durationMs svc fs =
      .error (.serviceError msg,
        { fs with chunkFiles := [j], calls := fs.calls ++ callsThrough ceiling totalBytes durationMs j }) ∧
    resultTranscript (transcribe debug ceiling totalBytes durationMs svc fs) = none := by
  have hcore := transcribeCore_split_fail ceiling totalBytes durationMs svc texts fs
    j msg hover hcd hfiles hj hpre hfail
  have h := transcribe_miss_error debug ceiling totalBytes durationMs svc fs hmiss _ hcore
  exact ⟨h, by rw [h]; simpa [resultTranscript] using hmiss⟩

/-- Witness for C6: 2-chunk plan, chunk 0's call raises "boom" — the
run aborts with only chunk 0's call issued and nothing cached. -/
theorem chunk_failure_aborts_witness :
    transcribe false 1 2 2 svcBoom fs0 =
      .error (.serviceError "boom",
        { fs0 with chunkFiles := [0], calls := fs0.calls ++ callsThrough 1 2 2 0 }) ∧
    resultTranscript (transcribe false 1 2 2 svcBoom fs0) = none :=
  chunk_failure_aborts false 1 2 2 svcBoom (fun _ => "") fs0 0 "boom"
    (by decide) rfl (by decide) rfl (by decide)
    (fun i hi => absurd hi (by omega)) rfl

/--
C7.  With the cache policy enabled (debug mode): a cache hit returns
the cached text unchanged, with the filesystem — in particular the
call trace — unchanged (zero service calls); and after any successful
call, the transcript is cached, so an immediately repeated call
returns the identical text with the identical filesystem (no new
service calls).
-/
theorem transcript_cache_idempotent (ceiling totalBytes durationMs : Nat)
    (svc : Nat → Nat → Except String String) (fs : FS) :
    (∀ t, fs.transcript = some t →
      transcribe true ceiling totalBytes durationMs svc fs = .ok (t, fs)) ∧
    (∀ t fs1, transcribe true ceiling totalBytes durationMs svc fs = .ok (t, fs1) →
      fs1.transcript = some t ∧
      transcribe true ceiling totalBytes durationMs svc fs1 = .ok (t, fs1)) := by
  have hHit : ∀ (g : FS) (t : String), g.transcript = some t →
      transcribe true ceiling totalBytes durationMs svc g = .ok (t, g) := by
    intro g t ht
    simp [transcribe, ht]
  refine ⟨hHit fs, ?_⟩
  intro t fs1 h
  rcases hfs : fs.transcript with _ | t0
  · rcases hcore : transcribeCore ceiling totalBytes durationMs svc fs with e | ⟨s, g⟩
    · rw [transcribe_miss_error true ceiling totalBytes durationMs svc fs hfs e hcore] at h
      exact absurd h (by simp)
    · rw [transcribe_miss_ok true ceiling totalBytes durationMs svc fs hfs s g hcore] at h
      simp only [if_pos] at h
      obtain ⟨rfl, rfl⟩ := by simpa using h
      exact ⟨rfl, hHit _ _ rfl⟩
  · have hrun := hHit fs t0 hfs
    rw [hrun] at h
    obtain ⟨rfl, rfl⟩ := by simpa using h
    exact ⟨hfs, hrun⟩

/-- A filesystem whose transcript file already exists. -/
def fsCached : FS := ⟨some "cached text", [], []⟩

/-- Witness for C7: a cache hit returns the cached text with an
unchanged filesystem (no calls issued). -/
theorem transcript_cache_idempotent_witness :
    transcribe true 25 10 5 svcHello fsCached = .ok ("cached text", fsCached) :=
  (transcript_cache_idempotent 25 10 5 svcHello fsCached).1 "cached text" rfl

/-- Witness for C1 at the spec's scenario-B input: the 3-range plan
for `total_bytes = 60_000_000`, `duration_ms = 1_200_000`,
`ceiling = 25_000_000` is a contiguous exact cover of
`[0, 1_200_000)`. -/
theorem chunkPlan_partition_and_bounded_witness :
    contiguousFrom 0 (chunkPlan 25000000 60000000 1200000) 1200000 :=
  (chunkPlan_partition_and_bounded 25000000 60000000 1200000
    (by decide) (by decide) (by decide)).1

/-! ## Model of the `/api/summarize` endpoint (app.py) -/

/-- The metadata record the downloader returns; the fields
`summarize_endpoint` reads (app.py lines 61-84). -/
structure Metadata where
  id : String
  title : String
  thumbnail : String
  channel : String
  duration_string : String
  release_date : String
deriving Repr, DecidableEq

/-- The JSON payload `summarize_endpoint` returns (app.py lines
74-91): either the success payload, or `{success: false, error:
str(e)}`. -/
inductive Response where
  | success (title summary thumbnail channel duration_string release_date : String)
  | failure (error : String)
deriving Repr, DecidableEq

/-- How many transcription and summarization calls a request
issued. -/
structure StageCalls where
  transcriptions : Nat
  summarizations : Nat
deriving Repr, DecidableEq

/-- `summarize_endpoint` (app.py lines 35-91): the `try` body runs
download, then transcription, then summarization, each a collaborator
oracle returning its result or the raised condition's message; the
first exception skips the remaining stages and the `except Exception`
clause returns `{success: false, error: str(e)}`. -/
def summarize_endpoint (download : Except String (String × Metadata))
    (transcribeStage : String → String → Except String String)
    (summarizeStage : String → Except String String) :
    Response × StageCalls :=
  match download with
  | .error e => (.failure e, ⟨0, 0⟩)
  | .ok (mp3_path, metadata) =>
    match transcribeStage mp3_path metadata.id with
    | .error e => (.failure e, ⟨1, 0⟩)
    | .ok text =>
      match summarizeStage text with
      | .error e => (.failure e, ⟨1, 1⟩)
      | .ok summary =>
        (.success metadata.title summary metadata.thumbnail metadata.channel
          metadata.duration_string metadata.release_date, ⟨1, 1⟩)

/-- A `Response` is exactly one of a success payload or a failure
payload, never both. -/
theorem response_success_iff_not_failure (r : Response) :
    (∃ a b c d e f, r = .success a b c d e f) ↔ ¬ ∃ m, r = .failure m := by
  cases r <;> simp

/--
C8.  Every request gets exactly one of a success payload or a failure
payload, never both; when a stage raises, the failure payload carries
that stage's own message verbatim; and when the download stage fails,
zero transcription and zero summarization calls occur.
-/
theorem endpoint_single_outcome_and_message
    (download : Except String (String × Metadata))
    (transcribeStage : String → String → Except String String)
    (summarizeStage : String → Except String String) :
    ((∃ a b c d e f, (summarize_endpoint download transcribeStage summarizeStage).1 =
        .success a b c d e f) ↔
      ¬ ∃ m, (summarize_endpoint download transcribeStage summarizeStage).1 = .failure m) ∧
    (∀ m, download = .error m →
      summarize_endpoint download transcribeStage summarizeStage = (.failure m, ⟨0, 0⟩)) ∧
    (∀ p md m, download = .ok (p, md) → transcribeStage p md.id = .error m →
      summarize_endpoint download transcribeStage summarizeStage = (.failure m, ⟨1, 0⟩)) ∧
    (∀ p md text m, download = .ok (p, md) → transcribeStage p md.id = .ok text →
      summarizeStage text = .error m →
      summarize_endpoint download transcribeStage summarizeStage = (.failure m, ⟨1, 1⟩)) := by
  refine ⟨response_success_iff_not_failure _, ?_, ?_, ?_⟩
  · intro m h
    simp [summarize_endpoint, h]
  · intro p md m h1 h2
    simp [summarize_endpoint, h1, h2]
  · intro p md text m h1 h2 h3
    simp [summarize_endpoint, h1, h2, h3]

/-- Witness for C8 at the spec's scenario C: the download stage raises
"Episode not found…", the endpoint returns that exact failure payload,
and no transcription or summarization call occurs. -/
theorem endpoint_single_outcome_witness :
    summarize_endpoint (.error "Episode not found. Please check the episode name.")
      (fun _ _ => .ok "text") (fun _ => .ok "summary") =
      (.failure "Episode not found. Please check the episode name.", ⟨0, 0⟩) :=
  (endpoint_single_outcome_and_message
    (.error "Episode not found. Please check the episode name.")
    (fun _ _ => .ok "text") (fun _ => .ok "summary")).2.1 _ rfl

/-! ## Model of `RSS_Feed_Downloader` episode selection
(rss_feed_downloader.py) -/

/-- A parsed feed entry as `download_episode` consumes it: its title
and its enclosure hrefs — `none` models an entry without the
`enclosures` attribute. -/
structure Entry where
  title : String
  enclosures : Option (List String)
deriving Repr, DecidableEq

/-- The Python exceptions the episode-selection path can raise. -/
inductive RssErr where
  | attributeError
  | valueError (msg : String)
  | indexError
deriving Repr, DecidableEq

/-- The loop of `_get_episode_entry` (rss_feed_downloader.py lines
102-107): for each entry it evaluates
`episode_name.lower() == entry.title.lower()`, so with
`episode_name = None` the very first comparison raises
`AttributeError` (`None` has no `.lower`); with no entries the loop
falls through and no entry is returned.  (The channel-title lookup of
line 103 cannot raise and plays no part in episode selection, so it is
not modelled.) -/
def getEpisodeEntry : List Entry → Option String → Except RssErr (Option Entry)
  | [], _ => .ok none
  | e :: rest, episode_name =>
    match episode_name with
    | none => .error .attributeError
    | some name =>
      if name.toLower == e.title.toLower then .ok (some e)
      else getEpisodeEntry rest (some name)

/-- `download_episode` (rss_feed_downloader.py lines 31-87) up to the
choice of the enclosure href: a missing entry raises
`ValueError("Episode not found. Please check the episode name.")`
(line 49); a found entry without an `enclosures` attribute raises
`AttributeError` when the guard on line 51 evaluates
`not entry.enclosures`; a present but empty enclosure list passes that
guard (its first conjunct is false) and raises `IndexError` at
`entry.enclosures[0]` (line 55).  The filesystem/network download that
follows the href choice is outside the model; the chosen href and
entry stand for its successful result. -/
def download_episode (entries : List Entry) (episode_name : Option String) :
    Except RssErr (String × Entry) :=
  match getEpisodeEntry entries episode_name with
  | .error e => .error e
  | .ok none => .error (.valueError "Episode not found. Please check the episode name.")
  | .ok (some entry) =>
    match entry.enclosures with
    | none => .error .attributeError
    | some hrefs =>
      match hrefs with
      | [] => .error .indexError
      | href :: _ => .ok (href, entry)

/--
C10.  With `episode_name = None` — a value the request schema permits
— `download_episode` never returns an episode: for every feed it
raises (`AttributeError` from `episode_name.lower()` as soon as any
entry is examined; `ValueError` for a feed with no entries), so the
documented fallback to the latest episode never happens for any feed.
-/
theorem download_episode_none_always_raises (entries : List Entry) :
    ∃ err, download_episode entries none = .error err := by
  cases entries with
  | nil =>
    exact ⟨.valueError "Episode not found. Please check the episode name.", rfl⟩
  | cons e rest =>
    exact ⟨.attributeError, rfl⟩

end PodcastSummarizer
